import Mathlib

/-!
Shallow embedding of the rsudoku puzzle engine (src/puzzle.rs) and proofs of
the specification claims.

Modelling choices:
* `Grid` is `Fin 9 → Fin 9 → Cell`, mirroring the fixed `[[Cell; 9]; 9]` array.
* `u8` cell values become `Nat` (the engine only ever stores 0..9).
* The process-wide RNG is modelled explicitly: the generator takes a `tape`
  (`Nat → List Nat`) giving the result of each successive `numbers.shuffle`
  call, threaded by an index, and `remove_numbers` takes the shuffled
  coordinate list directly.
* The recursion of `fill_grid` is expressed with a fuel parameter; since every
  recursive call strictly decreases the number of empty cells, fuel
  `numEmpty g + 1` is never exhausted (proved below as `fill_grid_stable`).
-/

/-- A cell of the grid: value 0 means empty; `is_clue` marks immutable
pre-filled cells; `possible_wrong` is the soft mistake hint. -/
structure Cell where
  value : Nat
  is_clue : Bool
  possible_wrong : Bool
deriving DecidableEq

/-- Model of `Cell::new(value, is_clue)` — `possible_wrong` starts false. -/
def Cell.new (value : Nat) (is_clue : Bool) : Cell :=
  ⟨value, is_clue, false⟩

/-- The 9×9 grid, row-major: `g r c` is the cell at row `r`, column `c`. -/
def Grid : Type := Fin 9 → Fin 9 → Cell

instance : DecidableEq Grid := by
  unfold Grid; infer_instance

/-- Overwrite one cell of the grid (`grid[r][c] = cell`). -/
def setCell (g : Grid) (r c : Fin 9) (cell : Cell) : Grid :=
  fun i j => if i = r ∧ j = c then cell else g i j

/-- Assignment `grid[r][c].value = v`. -/
def setVal (g : Grid) (r c : Fin 9) (v : Nat) : Grid :=
  setCell g r c { g r c with value := v }

/-- Assignment `grid[r][c].possible_wrong = b`. -/
def setWrong (g : Grid) (r c : Fin 9) (b : Bool) : Grid :=
  setCell g r c { g r c with possible_wrong := b }

/-- Model of `is_in_row`: some cell in row `row` holds `num`. -/
def is_in_row (g : Grid) (row : Fin 9) (num : Nat) : Bool :=
  (List.finRange 9).any fun j => (g row j).value == num

/-- Model of `is_in_col`: some cell in column `col` holds `num`. -/
def is_in_col (g : Grid) (col : Fin 9) (num : Nat) : Bool :=
  (List.finRange 9).any fun r => (g r col).value == num

/-- Model of `is_in_subgrid`: some cell of the 3×3 block anchored at
`(start_row, start_col)` holds `num`.  The source indexes the array directly
(and would panic out of range); callers always pass block-aligned anchors,
for which the bound check below always succeeds. -/
def is_in_subgrid (g : Grid) (start_row start_col : Nat) (num : Nat) : Bool :=
  (List.finRange 3).any fun i => (List.finRange 3).any fun j =>
    if h : start_row + i.val < 9 ∧ start_col + j.val < 9 then
      (g ⟨start_row + i.val, h.1⟩ ⟨start_col + j.val, h.2⟩).value == num
    else false

/-- Model of `is_safe`: `num` occurs in neither the row, the column, nor the 3×3
block of `(row, col)` (anchor computed as `row - row % 3`, `col - col % 3`). -/
def is_safe (g : Grid) (row col : Fin 9) (num : Nat) : Bool :=
  !is_in_row g row num && !is_in_col g col num &&
    !is_in_subgrid g (row.val - row.val % 3) (col.val - col.val % 3) num

/-- Loop body of `is_valid_set`: `seen` is the `HashSet` contents.  A non-zero
duplicate returns false; zeros are never inserted. -/
def valid_aux : List Nat → List Nat → Bool
  | [], _ => true
  | n :: rest, seen =>
    if n ≠ 0 ∧ n ∈ seen then false
    else valid_aux rest (if n ≠ 0 then n :: seen else seen)

/-- Model of `is_valid_set`: no non-zero value occurs twice in the list. -/
def is_valid_set (nums : List Nat) : Bool :=
  valid_aux nums []

/-- Values of row `r`, in column order. -/
def rowVals (g : Grid) (r : Fin 9) : List Nat :=
  (List.finRange 9).map fun j => (g r j).value

/-- Values of column `c`, in row order. -/
def colVals (g : Grid) (c : Fin 9) : List Nat :=
  (List.finRange 9).map fun r => (g r c).value

/-- Index pairs of a 3×3 block, row-major. -/
def blockIdx : List (Fin 3 × Fin 3) :=
  (List.finRange 3).product (List.finRange 3)

/-- Absolute row (or column) of block `b`, offset `i`. -/
def blockCoord (b : Fin 3) (i : Fin 3) : Fin 9 :=
  ⟨b.val * 3 + i.val, by omega⟩

/-- Values of the 3×3 block at block row `br`, block column `bc`, row-major
(matching the `step_by(3)` loops of `validate_sudoku`). -/
def subgridVals (g : Grid) (br bc : Fin 3) : List Nat :=
  blockIdx.map fun ij => (g (blockCoord br ij.1) (blockCoord bc ij.2)).value

/-- Model of `validate_sudoku`: every row, column and 3×3 block passes
`is_valid_set`. -/
def validate_sudoku (g : Grid) : Bool :=
  ((List.finRange 9).all fun r => is_valid_set (rowVals g r)) &&
  ((List.finRange 9).all fun c => is_valid_set (colVals g c)) &&
  ((List.finRange 3).all fun br => (List.finRange 3).all fun bc =>
    is_valid_set (subgridVals g br bc))

/-- The `Difficulty` enum. -/
inductive Difficulty where
  | easy | medium | hard | expert
deriving DecidableEq

/-- The clue count each difficulty maps to (`Difficulty as usize`). -/
def Difficulty.clues : Difficulty → Nat
  | .easy => 36
  | .medium => 34
  | .hard => 32
  | .expert => 30

/-- The `Puzzle` struct. -/
structure Puzzle where
  grid : Grid
  clues : Nat
  is_solved : Bool
deriving DecidableEq

/-- Model of `Puzzle::validate`. -/
def Puzzle.validate (p : Puzzle) : Bool :=
  validate_sudoku p.grid

/-- Model of `Puzzle::check_if_solved`: false if any cell is empty, otherwise
delegate to `validate`. -/
def check_if_solved (p : Puzzle) : Bool :=
  ((List.finRange 9).all fun r => (List.finRange 9).all fun c =>
    !((p.grid r c).value == 0)) && p.validate

/-- Model of `Puzzle::insert_number`. -/
def insert_number (p : Puzzle) (row col : Fin 9) (num : Nat) : Puzzle :=
  if (p.grid row col).is_clue then p
  else if (p.grid row col).value = 0 then
    let g1 := if !is_safe p.grid row col num then setWrong p.grid row col true
              else p.grid
    let g2 := setVal g1 row col num
    { p with grid := g2,
             is_solved := check_if_solved { p with grid := g2 } }
  else p

/-- Model of `Puzzle::clear_cell`. -/
def clear_cell (p : Puzzle) (row col : Fin 9) : Puzzle :=
  if (p.grid row col).is_clue then p
  else { p with grid := setWrong (setVal p.grid row col 0) row col false,
                is_solved := false }

/-- Model of `Puzzle::reset`: blank the value of every non-clue cell.  Note: the
source does not touch `is_solved` here. -/
def Puzzle.reset (p : Puzzle) : Puzzle :=
  { p with grid := fun r c =>
      if (p.grid r c).is_clue then p.grid r c
      else { p.grid r c with value := 0 } }

/-- All 81 coordinates, row-major (the order `remove_numbers` enumerates
before shuffling). -/
def allPos : List (Fin 9 × Fin 9) :=
  (List.finRange 9).product (List.finRange 9)

/-- Number of empty cells of the grid. -/
def numEmpty (g : Grid) : Nat :=
  allPos.countP fun rc => (g rc.1 rc.2).value == 0

/-- Row-major scan for the first empty cell (the double loop at the head of
`fill_grid`). -/
def findEmpty (g : Grid) : Option (Fin 9 × Fin 9) :=
  allPos.find? fun rc => (g rc.1 rc.2).value == 0

/-- Candidate loop of `fill_grid` at cell `(r, c)`: try each number of
`nums` in order; on a safe one, place it and run the recursive call `f`; on
failure undo the placement and continue. -/
def fillGo (f : Grid → Nat → Bool × Grid × Nat) (r c : Fin 9) :
    List Nat → Grid → Nat → Bool × Grid × Nat
  | [], g, k => (false, g, k)
  | n :: rest, g, k =>
    if is_safe g r c n then
      let res := f (setVal g r c n) k
      if res.1 then res
      else fillGo f r c rest (setVal res.2.1 r c 0) res.2.2
    else fillGo f r c rest g k

/-- Model of `fill_grid`: recursive backtracking filler.  `tape k` is the candidate
order produced by the `k`-th `numbers.shuffle` call (always a permutation of
1..9 in the source); the returned `Nat` is the next unused tape index.  The
fuel argument bounds the recursion depth; it strictly decreases along the
recursion, which in the source strictly decreases the number of empty cells,
so fuel `numEmpty g + 1` is never exhausted (`fill_grid_stable` below). -/
def fill_grid (tape : Nat → List Nat) : Nat → Grid → Nat → Bool × Grid × Nat
  | 0, g, k => (false, g, k)
  | fuel + 1, g, k =>
    match findEmpty g with
    | none => (true, g, k)
    | some rc => fillGo (fill_grid tape fuel) rc.1 rc.2 (tape k) g (k + 1)

/-- Model of `Puzzle::generate_full_solution`: run the filler on the grid (the bool
result is discarded in the source). -/
def generate_full_solution (tape : Nat → List Nat) (g : Grid) : Grid :=
  (fill_grid tape (numEmpty g + 1) g 0).2.1

/-- Blank each listed coordinate to `Cell::new(0, false)`, in order. -/
def blankAll (ps : List (Fin 9 × Fin 9)) (g : Grid) : Grid :=
  ps.foldl (fun g rc => setCell g rc.1 rc.2 (Cell.new 0 false)) g

/-- Model of `Puzzle::remove_numbers`: blank the first `81 - clues` coordinates of
the shuffled coordinate list `positions`. -/
def remove_numbers (positions : List (Fin 9 × Fin 9)) (p : Puzzle) : Puzzle :=
  { p with grid := blankAll (positions.take (9 * 9 - p.clues)) p.grid }

/-- Model of `Puzzle::new`: grid of `Cell::new(0, true)`, generate a full solution,
then remove numbers. -/
def Puzzle.new (d : Difficulty) (tape : Nat → List Nat)
    (positions : List (Fin 9 × Fin 9)) : Puzzle :=
  let p0 : Puzzle := ⟨fun _ _ => Cell.new 0 true, d.clues, false⟩
  let p1 : Puzzle := { p0 with grid := generate_full_solution tape p0.grid }
  remove_numbers positions p1

/-! Section: Basic update lemmas -/

theorem Cell.eta (x : Cell) (v : Nat) (h : x.value = v) :
    { x with value := v } = x := by
  cases x
  cases h
  rfl

theorem setCell_same (g : Grid) (r c : Fin 9) (cell : Cell) :
    setCell g r c cell r c = cell := by
  simp [setCell]

theorem setCell_other (g : Grid) (r c : Fin 9) (cell : Cell) (i j : Fin 9)
    (h : ¬(i = r ∧ j = c)) : setCell g r c cell i j = g i j := by
  simp [setCell, h]

theorem setVal_same (g : Grid) (r c : Fin 9) (v : Nat) :
    setVal g r c v r c = { g r c with value := v } := by
  simp [setVal, setCell]

theorem setVal_value_same (g : Grid) (r c : Fin 9) (v : Nat) :
    (setVal g r c v r c).value = v := by
  simp [setVal, setCell]

theorem setVal_other (g : Grid) (r c : Fin 9) (v : Nat) (i j : Fin 9)
    (h : ¬(i = r ∧ j = c)) : setVal g r c v i j = g i j := by
  simp [setVal, setCell, h]

theorem setVal_clue (g : Grid) (r c : Fin 9) (v : Nat) (i j : Fin 9) :
    (setVal g r c v i j).is_clue = (g i j).is_clue := by
  by_cases h : i = r ∧ j = c
  · obtain ⟨rfl, rfl⟩ := h
    simp [setVal, setCell]
  · simp [setVal, setCell, h]

theorem setVal_wrong (g : Grid) (r c : Fin 9) (v : Nat) (i j : Fin 9) :
    (setVal g r c v i j).possible_wrong = (g i j).possible_wrong := by
  by_cases h : i = r ∧ j = c
  · obtain ⟨rfl, rfl⟩ := h
    simp [setVal, setCell]
  · simp [setVal, setCell, h]

theorem setWrong_value (g : Grid) (r c : Fin 9) (b : Bool) (i j : Fin 9) :
    (setWrong g r c b i j).value = (g i j).value := by
  by_cases h : i = r ∧ j = c
  · obtain ⟨rfl, rfl⟩ := h
    simp [setWrong, setCell]
  · simp [setWrong, setCell, h]

theorem setWrong_clue (g : Grid) (r c : Fin 9) (b : Bool) (i j : Fin 9) :
    (setWrong g r c b i j).is_clue = (g i j).is_clue := by
  by_cases h : i = r ∧ j = c
  · obtain ⟨rfl, rfl⟩ := h
    simp [setWrong, setCell]
  · simp [setWrong, setCell, h]

theorem setWrong_wrong_same (g : Grid) (r c : Fin 9) (b : Bool) :
    (setWrong g r c b r c).possible_wrong = b := by
  simp [setWrong, setCell]

theorem setWrong_other (g : Grid) (r c : Fin 9) (b : Bool) (i j : Fin 9)
    (h : ¬(i = r ∧ j = c)) : setWrong g r c b i j = g i j := by
  simp [setWrong, setCell, h]

/-- Undo after a placement restores the grid exactly (the backtracking
discipline of `fill_grid`). -/
theorem setVal_undo (g : Grid) (r c : Fin 9) (n : Nat)
    (h : (g r c).value = 0) : setVal (setVal g r c n) r c 0 = g := by
  funext i j
  by_cases hij : i = r ∧ j = c
  · obtain ⟨rfl, rfl⟩ := hij
    rw [setVal_same, setVal_same]
    exact Cell.eta (g i j) 0 h
  · rw [setVal_other _ _ _ _ _ _ hij, setVal_other _ _ _ _ _ _ hij]

/-! Section: Concrete grids used by witnesses and counterexamples -/

/-- A single clue `5` at `(0,0)`, everything else empty and player-fillable. -/
def oneClueGrid : Grid := fun r c =>
  if r.val = 0 ∧ c.val = 0 then Cell.new 5 true else Cell.new 0 false

/-- Puzzle state holding `oneClueGrid`. -/
def oneCluePuzzle : Puzzle := ⟨oneClueGrid, 1, false⟩

/-- The cyclic full Sudoku solution `(r*3 + r/3 + c) % 9 + 1`. -/
def cyclicVal (r c : Fin 9) : Nat := (r.val * 3 + r.val / 3 + c.val) % 9 + 1

/-- The cyclic solution with `(0,0)` blanked and player-fillable, all other
cells clues: one correct insert away from solved. -/
def nearGrid : Grid := fun r c =>
  if r.val = 0 ∧ c.val = 0 then Cell.new 0 false else Cell.new (cyclicVal r c) true

/-- Puzzle state holding `nearGrid`. -/
def nearPuzzle : Puzzle := ⟨nearGrid, 36, false⟩

/-- The `nearPuzzle` after inserting the one correct digit: a solved state
reached through the mutation API (`is_solved` evaluates to `true`). -/
def solvedPuzzle : Puzzle := insert_number nearPuzzle 0 0 1

/-! Section: C7: clue cells are immutable -/

/-- C7: for a cell whose clue flag is true, `insert_number` and `clear_cell`
on that cell return the puzzle completely unchanged (grid, flags, clue count
and solved flag included). -/
theorem clue_cells_immutable (p : Puzzle) (r c : Fin 9) (num : Nat)
    (h : (p.grid r c).is_clue = true) :
    insert_number p r c num = p ∧ clear_cell p r c = p := by
  constructor
  · simp [insert_number, h]
  · simp [clear_cell, h]

/-- Witness for C7 at the clue cell `(0,0)` of `oneCluePuzzle`. -/
theorem clue_cells_immutable_witness :
    insert_number oneCluePuzzle 0 0 3 = oneCluePuzzle ∧
    clear_cell oneCluePuzzle 0 0 = oneCluePuzzle :=
  clue_cells_immutable oneCluePuzzle 0 0 3 (by decide)

/-! Section: C8: first fill wins, clear re-enables writing -/

/-- C8: on a non-clue cell, inserting into value 0 writes the digit; when the
cell holds a non-zero value, `insert_number` is a complete no-op; after a
`clear_cell` the cell is 0 again and a new insert writes. -/
theorem insert_single_fill (p : Puzzle) (r c : Fin 9) (num num2 : Nat)
    (hnc : (p.grid r c).is_clue = false) :
    ((p.grid r c).value = 0 →
      ((insert_number p r c num).grid r c).value = num) ∧
    ((p.grid r c).value ≠ 0 → insert_number p r c num = p) ∧
    ((clear_cell p r c).grid r c).value = 0 ∧
    ((insert_number (clear_cell p r c) r c num2).grid r c).value = num2 := by
  have hclear_val : ((clear_cell p r c).grid r c).value = 0 := by
    simp [clear_cell, hnc, setWrong_value, setVal_value_same]
  have hclear_clue : ((clear_cell p r c).grid r c).is_clue = false := by
    simp [clear_cell, hnc, setWrong_clue, setVal_clue]
  have hwrite : ∀ (q : Puzzle) (m : Nat), (q.grid r c).is_clue = false →
      (q.grid r c).value = 0 →
      ((insert_number q r c m).grid r c).value = m := by
    intro q m hq h0
    by_cases hs : is_safe q.grid r c m <;>
      simp [insert_number, hq, h0, hs, setVal_value_same]
  refine ⟨fun h0 => hwrite p num hnc h0, ?_,
    hclear_val, hwrite _ num2 hclear_clue hclear_val⟩
  intro hne
  simp [insert_number, hnc, hne]

/-- Witness for C8 at the empty non-clue cell `(0,1)` of `oneCluePuzzle`. -/
theorem insert_single_fill_witness :
    ((insert_number oneCluePuzzle 0 1 7).grid 0 1).value = 7 :=
  (insert_single_fill oneCluePuzzle 0 1 7 7 (by decide)).1 (by decide)

/-! Section: C9: the mistake flag -/

/-- C9: inserting into an empty non-clue cell when `is_safe` fails sets the
cell's mistake flag (and still writes the digit); mutations of other cells
never touch this cell's flag; `clear_cell` on the cell resets the flag. -/
theorem mistake_flag_semantics (p : Puzzle) (r c r2 c2 : Fin 9)
    (num num2 : Nat) (hne : ¬(r = r2 ∧ c = c2))
    (hnc : (p.grid r c).is_clue = false) :
    ((p.grid r c).value = 0 → is_safe p.grid r c num = false →
      ((insert_number p r c num).grid r c).possible_wrong = true ∧
      ((insert_number p r c num).grid r c).value = num) ∧
    ((insert_number p r2 c2 num2).grid r c).possible_wrong
      = (p.grid r c).possible_wrong ∧
    ((clear_cell p r2 c2).grid r c).possible_wrong
      = (p.grid r c).possible_wrong ∧
    ((clear_cell p r c).grid r c).possible_wrong = false := by
  refine ⟨?_, ?_, ?_, ?_⟩
  · intro h0 hunsafe
    simp [insert_number, hnc, h0, hunsafe, setVal_value_same, setVal_wrong,
      setWrong_wrong_same]
  · by_cases hclue : (p.grid r2 c2).is_clue
    · simp [insert_number, hclue]
    · by_cases h0 : (p.grid r2 c2).value = 0
      · by_cases hs : is_safe p.grid r2 c2 num2
        · simp [insert_number, hclue, h0, hs, setVal_wrong]
        · simp [insert_number, hclue, h0, hs, setVal_wrong]
          rw [setWrong_other _ _ _ _ _ _ hne]
      · simp [insert_number, hclue, h0]
  · by_cases hclue : (p.grid r2 c2).is_clue
    · simp [clear_cell, hclue]
    · simp [clear_cell, hclue]
      rw [setWrong_other _ _ _ _ _ _ hne, setVal_other _ _ _ _ _ _ hne]
  · simp [clear_cell, hnc, setWrong_wrong_same]

/-- Witness for C9: inserting `5` at `(0,1)` next to the clue `5` at `(0,0)`
flags the entry while writing it. -/
theorem mistake_flag_semantics_witness :
    ((insert_number oneCluePuzzle 0 1 5).grid 0 1).possible_wrong = true ∧
    ((insert_number oneCluePuzzle 0 1 5).grid 0 1).value = 5 :=
  (mistake_flag_semantics oneCluePuzzle 0 1 0 0 5 5 (by decide)
    (by decide)).1 (by decide) (by decide)

/-! Section: C10: reset keeps mistake flags, clear_cell drops them -/

/-- C10: `reset` only blanks values — it preserves every cell's
`possible_wrong` flag and clue flag (zeroing values of non-clue cells),
whereas `clear_cell` resets the flag of the cell it empties. -/
theorem reset_keeps_mistake_flags (p : Puzzle) (r c : Fin 9) :
    (p.reset.grid r c).possible_wrong = (p.grid r c).possible_wrong ∧
    (p.reset.grid r c).is_clue = (p.grid r c).is_clue ∧
    ((p.grid r c).is_clue = false →
      (p.reset.grid r c).value = 0 ∧
      ((clear_cell p r c).grid r c).possible_wrong = false) := by
  refine ⟨?_, ?_, fun hnc => ⟨?_, ?_⟩⟩
  · by_cases h : (p.grid r c).is_clue <;> simp [Puzzle.reset, h]
  · by_cases h : (p.grid r c).is_clue <;> simp [Puzzle.reset, h]
  · simp [Puzzle.reset, hnc]
  · simp [clear_cell, hnc, setWrong_wrong_same]

/-- Witness for C10: a flagged entry at `(0,1)` keeps its flag through
`reset` even though its value is blanked. -/
theorem reset_keeps_mistake_flags_witness :
    ((insert_number oneCluePuzzle 0 1 5).reset.grid 0 1).possible_wrong
      = ((insert_number oneCluePuzzle 0 1 5).grid 0 1).possible_wrong ∧
    ((insert_number oneCluePuzzle 0 1 5).reset.grid 0 1).value = 0 :=
  ⟨(reset_keeps_mistake_flags (insert_number oneCluePuzzle 0 1 5) 0 1).1,
   ((reset_keeps_mistake_flags (insert_number oneCluePuzzle 0 1 5) 0 1).2.2
     (by decide)).1⟩

/-! Section: C4: solved-flag transitions -/

/-- Reading `check_if_solved = true`: all cells non-zero and the grid
validates. -/
theorem check_if_solved_spec (q : Puzzle) (h : check_if_solved q = true) :
    (∀ i j, (q.grid i j).value ≠ 0) ∧ validate_sudoku q.grid = true := by
  rw [check_if_solved, Bool.and_eq_true] at h
  constructor
  · intro i j
    have hall := h.1
    rw [List.all_eq_true] at hall
    have h1 := hall i (List.mem_finRange i)
    rw [List.all_eq_true] at h1
    have h2 := h1 j (List.mem_finRange j)
    simpa using h2
  · exact h.2

/-- C4: the solved flag can become true only through `insert_number`, and
only when afterwards every cell is non-zero and `validate_sudoku` passes;
`clear_cell` and `reset` never turn it on, and from a solved state clearing
any non-clue cell turns it off. -/
theorem solved_flag_transitions (p : Puzzle) (r c : Fin 9) (num : Nat) :
    ((insert_number p r c num).is_solved = true → p.is_solved = true ∨
      ((∀ i j, ((insert_number p r c num).grid i j).value ≠ 0) ∧
        validate_sudoku (insert_number p r c num).grid = true)) ∧
    (p.is_solved = false → (clear_cell p r c).is_solved = false ∧
      p.reset.is_solved = false) ∧
    (p.is_solved = true → (p.grid r c).is_clue = false →
      (clear_cell p r c).is_solved = false) := by
  refine ⟨?_, ?_, ?_⟩
  · intro hsol
    by_cases hclue : (p.grid r c).is_clue
    · left
      simpa [insert_number, hclue] using hsol
    · by_cases h0 : (p.grid r c).value = 0
      · right
        have hres : (insert_number p r c num).is_solved
            = check_if_solved { p with grid := (insert_number p r c num).grid } := by
          simp [insert_number, hclue, h0]
        rw [hres] at hsol
        have hspec := check_if_solved_spec _ hsol
        exact hspec
      · left
        simpa [insert_number, hclue, h0] using hsol
  · intro hns
    constructor
    · by_cases hclue : (p.grid r c).is_clue <;> simp [clear_cell, hclue, hns]
    · simpa [Puzzle.reset] using hns
  · intro _ hnc
    simp [clear_cell, hnc]

/-- Witness for C4: clearing the non-clue cell `(0,0)` of the solved state
`solvedPuzzle` drops the solved flag. -/
theorem solved_flag_transitions_witness :
    (clear_cell solvedPuzzle 0 0).is_solved = false :=
  (solved_flag_transitions solvedPuzzle 0 0 1).2.2 (by decide) (by decide)

/-! Section: C3: reset and the solved flag (code bug) -/

/-- C3 counterexample evaluation: `solvedPuzzle` is a solved state reached by
inserting the one missing digit of `nearPuzzle`; its `(0,0)` cell is not a
clue, `reset` does blank it and keeps clue cells intact, yet `is_solved`
still reports `true` after `reset`, because `Puzzle::reset` never updates
the cached flag.  The spec requires `is_solved() = false` after `reset()`. -/
theorem reset_leaves_solved_flag_set :
    solvedPuzzle.is_solved = true ∧
    (solvedPuzzle.grid 0 0).is_clue = false ∧
    (solvedPuzzle.reset.grid 0 0).value = 0 ∧
    solvedPuzzle.reset.is_solved = true := by
  refine ⟨by decide, by decide, by decide, by decide⟩

/-! Section: C5: correctness of validate_sudoku -/

/-- Invariant of the `is_valid_set` loop: it succeeds iff the non-zero
entries of the remaining list are pairwise distinct and avoid `seen`. -/
theorem valid_aux_iff (l : List Nat) : ∀ seen : List Nat,
    (valid_aux l seen = true ↔
      ((l.filter fun n => n != 0).Nodup ∧ ∀ n ∈ l, n ≠ 0 → n ∉ seen)) := by
  induction l with
  | nil => intro seen; simp [valid_aux]
  | cons n rest ih =>
    intro seen
    rw [valid_aux]
    by_cases hn : n = 0
    · subst hn
      rw [if_neg (by simp), if_neg (by simp), ih seen]
      constructor
      · rintro ⟨h1, h2⟩
        refine ⟨by simpa using h1, fun m hm hm0 => ?_⟩
        rcases List.mem_cons.mp hm with rfl | hm'
        · exact absurd rfl hm0
        · exact h2 m hm' hm0
      · rintro ⟨h1, h2⟩
        exact ⟨by simpa using h1,
          fun m hm hm0 => h2 m (List.mem_cons_of_mem _ hm) hm0⟩
    · by_cases hmem : n ∈ seen
      · rw [if_pos ⟨hn, hmem⟩]
        simp only [Bool.false_eq_true, false_iff]
        rintro ⟨_, h2⟩
        exact h2 n (List.mem_cons_self n rest) hn hmem
      · rw [if_neg (by tauto), if_pos hn, ih (n :: seen)]
        have hfil : (n :: rest).filter (fun m => m != 0)
            = n :: rest.filter (fun m => m != 0) := by
          simp [List.filter_cons, hn]
        constructor
        · rintro ⟨h1, h2⟩
          rw [hfil, List.nodup_cons]
          refine ⟨⟨fun hnf => ?_, h1⟩, fun m hm hm0 => ?_⟩
          · have hmr := List.mem_filter.mp hnf
            exact (h2 n hmr.1 hn) (List.mem_cons_self n seen)
          · rcases List.mem_cons.mp hm with rfl | hm'
            · exact hmem
            · exact fun hms => h2 m hm' hm0 (List.mem_cons_of_mem _ hms)
        · rintro ⟨h1, h2⟩
          rw [hfil, List.nodup_cons] at h1
          refine ⟨h1.2, fun m hm hm0 hmns => ?_⟩
          rcases List.mem_cons.mp hmns with rfl | hms
          · exact h1.1 (List.mem_filter.mpr ⟨hm, by simpa using hm0⟩)
          · exact h2 m (List.mem_cons_of_mem _ hm) hm0 hms

/-- Model of `is_valid_set` succeeds iff every non-zero value occurs at most once. -/
theorem is_valid_set_iff (l : List Nat) :
    is_valid_set l = true ↔ ∀ n : Nat, n ≠ 0 → l.count n ≤ 1 := by
  rw [is_valid_set, valid_aux_iff]
  simp only [List.not_mem_nil, not_false_eq_true, implies_true, and_true]
  constructor
  · intro h1 n hn
    have := List.nodup_iff_count_le_one.mp h1 n
    rwa [List.count_filter (by simpa using hn)] at this
  · intro h
    refine List.nodup_iff_count_le_one.mpr fun n => ?_
    by_cases hn : n = 0
    · subst hn
      have : (0 : Nat) ∉ l.filter fun m => m != 0 := by
        intro hmem
        simpa using (List.mem_filter.mp hmem).2
      simp [List.count_eq_zero_of_not_mem this]
    · rw [List.count_filter (by simpa using hn)]
      exact h n hn

/-- Spec-side predicate: a unit (one row, column or subgrid) contains each
non-zero digit at most once; zeros never count as duplicates. -/
def spec_at_most_once (l : List Nat) : Prop :=
  ∀ n : Nat, n ≠ 0 → l.count n ≤ 1

/-- Spec-side predicate, written from the spec's words: every row, every
column, and every one of the 9 subgrids contains each non-zero digit at most
once. -/
def spec_rule_consistent (g : Grid) : Prop :=
  (∀ r : Fin 9, spec_at_most_once (rowVals g r)) ∧
  (∀ c : Fin 9, spec_at_most_once (colVals g c)) ∧
  (∀ br bc : Fin 3, spec_at_most_once (subgridVals g br bc))

/-- The code's whole-grid validator agrees with the spec predicate. -/
theorem validate_sudoku_iff (g : Grid) :
    validate_sudoku g = true ↔ spec_rule_consistent g := by
  rw [validate_sudoku]
  simp only [Bool.and_eq_true, List.all_eq_true]
  constructor
  · rintro ⟨⟨h1, h2⟩, h3⟩
    exact ⟨fun r => (is_valid_set_iff _).mp (h1 r (List.mem_finRange r)),
      fun c => (is_valid_set_iff _).mp (h2 c (List.mem_finRange c)),
      fun br bc => (is_valid_set_iff _).mp
        ((h3 br (List.mem_finRange br)) bc (List.mem_finRange bc))⟩
  · rintro ⟨h1, h2, h3⟩
    exact ⟨⟨fun r _ => (is_valid_set_iff _).mpr (h1 r),
      fun c _ => (is_valid_set_iff _).mpr (h2 c)⟩,
      fun br _ bc _ => (is_valid_set_iff _).mpr (h3 br bc)⟩

/-- C5: `validate_sudoku` returns true iff every row, every column and every
of the 9 subgrids contains each non-zero digit at most once — zeros never
count as duplicates, however many share a unit. -/
theorem validate_grid_matches_spec (g : Grid) :
    validate_sudoku g = true ↔ spec_rule_consistent g :=
  validate_sudoku_iff g

/-! Section: Counting helpers for unit preservation -/

theorem allPos_nodup : allPos.Nodup :=
  (List.nodup_finRange 9).product (List.nodup_finRange 9)

theorem mem_allPos (rc : Fin 9 × Fin 9) : rc ∈ allPos :=
  List.mem_product.mpr ⟨List.mem_finRange _, List.mem_finRange _⟩

theorem blockIdx_nodup : blockIdx.Nodup :=
  (List.nodup_finRange 3).product (List.nodup_finRange 3)

theorem mem_blockIdx (ij : Fin 3 × Fin 3) : ij ∈ blockIdx :=
  List.mem_product.mpr ⟨List.mem_finRange _, List.mem_finRange _⟩

/-- Two distinct positions of a duplicate-free list both satisfying `p`
force `countP p` to at least 2. -/
theorem two_le_countP [DecidableEq α] (l : List α) (hl : l.Nodup) {a b : α}
    (ha : a ∈ l) (hb : b ∈ l) (hab : a ≠ b) (p : α → Bool)
    (hpa : p a = true) (hpb : p b = true) : 2 ≤ l.countP p := by
  have hperm := List.perm_cons_erase ha
  have hbe : b ∈ l.erase a := (List.mem_erase_of_ne (Ne.symm hab)).mpr hb
  have h1 : 0 < (l.erase a).countP p :=
    List.countP_pos_iff.mpr ⟨b, hbe, hpb⟩
  have h2 : l.countP p = (l.erase a).countP p + 1 := by
    rw [hperm.countP_eq p, List.countP_cons_of_pos p _ hpa]
  omega

/-- Counting a non-zero value over a pointwise same-or-blanked family never
increases. -/
theorem count_map_le_of_blank (l : List α) (f f' : α → Nat) (n : Nat)
    (hn : n ≠ 0) (h : ∀ a ∈ l, f' a = f a ∨ f' a = 0) :
    (l.map f').count n ≤ (l.map f).count n := by
  induction l with
  | nil => simp
  | cons a rest ih =>
    have hrec := ih fun b hb => h b (List.mem_cons_of_mem _ hb)
    rw [List.map_cons, List.map_cons, List.count_cons, List.count_cons]
    rcases h a (List.mem_cons_self a rest) with ha | ha
    · rw [ha]
      omega
    · rw [ha]
      have h0 : (((0 : Nat) == n) : Bool) = false :=
        beq_eq_false_iff_ne.mpr (Ne.symm hn)
      rw [h0]
      simp only [Bool.false_eq_true, if_false]
      omega

/-- Placing a fresh non-zero value into the unique zero position preserves
"each non-zero digit at most once" over a unit. -/
theorem spec_at_most_once_update [DecidableEq α] (l : List α) (hl : l.Nodup)
    (c₀ : α) (hc : c₀ ∈ l) (f f' : α → Nat)
    (hagree : ∀ a ∈ l, a ≠ c₀ → f' a = f a) (hold : f c₀ = 0)
    (hnew0 : f' c₀ ≠ 0) (hnew : (l.map f).count (f' c₀) = 0)
    (hbase : spec_at_most_once (l.map f)) :
    spec_at_most_once (l.map f') := by
  intro n hn
  have hperm := List.perm_cons_erase hc
  have hmapeq : (l.erase c₀).map f' = (l.erase c₀).map f := by
    refine List.map_congr_left fun a ha => ?_
    have hmem := (List.Nodup.mem_erase_iff hl).mp ha
    exact hagree a hmem.2 hmem.1
  have hpm' : (l.map f').count n
      = ((l.erase c₀).map f).count n + if f' c₀ == n then 1 else 0 := by
    rw [(hperm.map f').count_eq n, List.map_cons, List.count_cons, hmapeq]
  have hpm : (l.map f).count n
      = ((l.erase c₀).map f).count n + if f c₀ == n then 1 else 0 := by
    rw [(hperm.map f).count_eq n, List.map_cons, List.count_cons]
  have hfc : ((f c₀ == n) : Bool) = false := by
    rw [hold]
    exact beq_eq_false_iff_ne.mpr (Ne.symm hn)
  rw [hfc] at hpm
  simp only [Bool.false_eq_true, if_false, Nat.add_zero] at hpm
  by_cases hfn : f' c₀ = n
  · have hnew' : (l.map f).count n = 0 := hfn ▸ hnew
    have hbeq : ((f' c₀ == n) : Bool) = true := beq_iff_eq.mpr hfn
    rw [hpm', hbeq]
    simp only [if_true]
    omega
  · have hbeq : ((f' c₀ == n) : Bool) = false := beq_eq_false_iff_ne.mpr hfn
    have hb := hbase n hn
    rw [hpm', hbeq]
    simp only [Bool.false_eq_true, if_false, Nat.add_zero]
    omega

/-! Section: Membership characterizations of the checkers -/

/-- Block index (`row / 3`) of a coordinate. -/
def blockOf (x : Fin 9) : Fin 3 := ⟨x.val / 3, by omega⟩

/-- Offset (`row % 3`) of a coordinate inside its block. -/
def innerOf (x : Fin 9) : Fin 3 := ⟨x.val % 3, by omega⟩

theorem blockCoord_val (b i : Fin 3) : (blockCoord b i).val = b.val * 3 + i.val :=
  rfl

theorem blockCoord_inner (x : Fin 9) : blockCoord (blockOf x) (innerOf x) = x := by
  apply Fin.ext
  simp only [blockCoord_val, blockOf, innerOf]
  omega

theorem blockCoord_eq_imp {b i : Fin 3} {x : Fin 9} (h : blockCoord b i = x) :
    b = blockOf x ∧ i = innerOf x := by
  have hv := congrArg Fin.val h
  rw [blockCoord_val] at hv
  have hb := b.isLt
  have hi := i.isLt
  constructor
  · apply Fin.ext
    simp only [blockOf]
    omega
  · apply Fin.ext
    simp only [innerOf]
    omega

theorem mem_rowVals (g : Grid) (r : Fin 9) (n : Nat) :
    n ∈ rowVals g r ↔ ∃ j, (g r j).value = n := by
  unfold rowVals
  rw [List.mem_map]
  constructor
  · rintro ⟨j, _, h⟩; exact ⟨j, h⟩
  · rintro ⟨j, h⟩; exact ⟨j, List.mem_finRange j, h⟩

theorem mem_colVals (g : Grid) (c : Fin 9) (n : Nat) :
    n ∈ colVals g c ↔ ∃ r, (g r c).value = n := by
  unfold colVals
  rw [List.mem_map]
  constructor
  · rintro ⟨r, _, h⟩; exact ⟨r, h⟩
  · rintro ⟨r, h⟩; exact ⟨r, List.mem_finRange r, h⟩

theorem mem_subgridVals (g : Grid) (br bc : Fin 3) (n : Nat) :
    n ∈ subgridVals g br bc ↔
      ∃ ij : Fin 3 × Fin 3,
        (g (blockCoord br ij.1) (blockCoord bc ij.2)).value = n := by
  unfold subgridVals
  rw [List.mem_map]
  constructor
  · rintro ⟨ij, _, h⟩; exact ⟨ij, h⟩
  · rintro ⟨ij, h⟩; exact ⟨ij, mem_blockIdx ij, h⟩

theorem is_in_row_iff (g : Grid) (r : Fin 9) (n : Nat) :
    is_in_row g r n = true ↔ n ∈ rowVals g r := by
  rw [mem_rowVals, is_in_row, List.any_eq_true]
  constructor
  · rintro ⟨j, _, h⟩; exact ⟨j, beq_iff_eq.mp h⟩
  · rintro ⟨j, h⟩; exact ⟨j, List.mem_finRange j, beq_iff_eq.mpr h⟩

theorem is_in_col_iff (g : Grid) (c : Fin 9) (n : Nat) :
    is_in_col g c n = true ↔ n ∈ colVals g c := by
  rw [mem_colVals, is_in_col, List.any_eq_true]
  constructor
  · rintro ⟨r, _, h⟩; exact ⟨r, beq_iff_eq.mp h⟩
  · rintro ⟨r, h⟩; exact ⟨r, List.mem_finRange r, beq_iff_eq.mpr h⟩

theorem is_in_subgrid_anchor_iff (g : Grid) (r c : Fin 9) (n : Nat) :
    is_in_subgrid g (r.val - r.val % 3) (c.val - c.val % 3) n = true
      ↔ n ∈ subgridVals g (blockOf r) (blockOf c) := by
  have hr9 := r.isLt
  have hc9 := c.isLt
  rw [mem_subgridVals, is_in_subgrid, List.any_eq_true]
  constructor
  · rintro ⟨i, _, hany⟩
    rw [List.any_eq_true] at hany
    obtain ⟨j, _, hd⟩ := hany
    have hb : r.val - r.val % 3 + i.val < 9 ∧ c.val - c.val % 3 + j.val < 9 := by
      have hi := i.isLt
      have hj := j.isLt
      omega
    rw [dif_pos hb] at hd
    refine ⟨(i, j), ?_⟩
    have hcr : (⟨r.val - r.val % 3 + i.val, hb.1⟩ : Fin 9)
        = blockCoord (blockOf r) i := by
      apply Fin.ext
      simp only [blockCoord_val, blockOf]
      omega
    have hcc : (⟨c.val - c.val % 3 + j.val, hb.2⟩ : Fin 9)
        = blockCoord (blockOf c) j := by
      apply Fin.ext
      simp only [blockCoord_val, blockOf]
      omega
    rw [hcr, hcc] at hd
    exact beq_iff_eq.mp hd
  · rintro ⟨⟨i, j⟩, h⟩
    refine ⟨i, List.mem_finRange i, ?_⟩
    rw [List.any_eq_true]
    refine ⟨j, List.mem_finRange j, ?_⟩
    have hb : r.val - r.val % 3 + i.val < 9 ∧ c.val - c.val % 3 + j.val < 9 := by
      have hi := i.isLt
      have hj := j.isLt
      omega
    rw [dif_pos hb]
    have hcr : (⟨r.val - r.val % 3 + i.val, hb.1⟩ : Fin 9)
        = blockCoord (blockOf r) i := by
      apply Fin.ext
      simp only [blockCoord_val, blockOf]
      omega
    have hcc : (⟨c.val - c.val % 3 + j.val, hb.2⟩ : Fin 9)
        = blockCoord (blockOf c) j := by
      apply Fin.ext
      simp only [blockCoord_val, blockOf]
      omega
    rw [hcr, hcc]
    exact beq_iff_eq.mpr h

theorem count_rowVals_zero (g : Grid) (r : Fin 9) (n : Nat)
    (h : is_in_row g r n = false) : (rowVals g r).count n = 0 :=
  List.count_eq_zero.mpr fun hmem =>
    absurd ((is_in_row_iff g r n).mpr hmem) (by simp [h])

theorem count_colVals_zero (g : Grid) (c : Fin 9) (n : Nat)
    (h : is_in_col g c n = false) : (colVals g c).count n = 0 :=
  List.count_eq_zero.mpr fun hmem =>
    absurd ((is_in_col_iff g c n).mpr hmem) (by simp [h])

theorem count_subgridVals_zero (g : Grid) (r c : Fin 9) (n : Nat)
    (h : is_in_subgrid g (r.val - r.val % 3) (c.val - c.val % 3) n = false) :
    (subgridVals g (blockOf r) (blockOf c)).count n = 0 :=
  List.count_eq_zero.mpr fun hmem =>
    absurd ((is_in_subgrid_anchor_iff g r c n).mpr hmem) (by simp [h])

/-! Section: Placement and blanking preserve rule consistency -/

theorem rowVals_setVal_ne (g : Grid) (r c : Fin 9) (n : Nat) (r' : Fin 9)
    (h : r' ≠ r) : rowVals (setVal g r c n) r' = rowVals g r' :=
  List.map_congr_left fun j _ => by
    rw [setVal_other _ _ _ _ _ _ fun hh => h hh.1]

theorem colVals_setVal_ne (g : Grid) (r c : Fin 9) (n : Nat) (c' : Fin 9)
    (h : c' ≠ c) : colVals (setVal g r c n) c' = colVals g c' :=
  List.map_congr_left fun i _ => by
    rw [setVal_other _ _ _ _ _ _ fun hh => h hh.2]

theorem subgridVals_setVal_ne (g : Grid) (r c : Fin 9) (n : Nat)
    (br bc : Fin 3) (h : ¬(br = blockOf r ∧ bc = blockOf c)) :
    subgridVals (setVal g r c n) br bc = subgridVals g br bc :=
  List.map_congr_left fun ij _ => by
    refine congrArg Cell.value (setVal_other _ _ _ _ _ _ ?_)
    rintro ⟨h1, h2⟩
    exact h ⟨(blockCoord_eq_imp h1).1, (blockCoord_eq_imp h2).1⟩

/-- Writing a safe digit into an empty cell keeps the grid rule-consistent. -/
theorem spec_preserved_setVal (g : Grid) (r c : Fin 9) (n : Nat)
    (hg : spec_rule_consistent g) (h0 : (g r c).value = 0)
    (hsafe : is_safe g r c n = true) :
    spec_rule_consistent (setVal g r c n) := by
  rw [is_safe, Bool.and_eq_true, Bool.and_eq_true] at hsafe
  obtain ⟨⟨hrow, hcol⟩, hsub⟩ := hsafe
  rw [Bool.not_eq_true'] at hrow hcol hsub
  have hn0 : n ≠ 0 := by
    intro hn
    subst hn
    have : is_in_row g r 0 = true :=
      (is_in_row_iff g r 0).mpr ((mem_rowVals g r 0).mpr ⟨c, h0⟩)
    rw [hrow] at this
    exact Bool.false_ne_true this
  refine ⟨?_, ?_, ?_⟩
  · intro r'
    by_cases hr : r' = r
    · subst hr
      refine spec_at_most_once_update (List.finRange 9) (List.nodup_finRange 9)
        c (List.mem_finRange c) (fun j => (g r' j).value)
        (fun j => (setVal g r' c n r' j).value)
        (fun j _ hj => by
          show (setVal g r' c n r' j).value = (g r' j).value
          rw [setVal_other _ _ _ _ _ _ fun hh => hj hh.2])
        h0 ?_ ?_ (hg.1 r')
      · show (setVal g r' c n r' c).value ≠ 0
        rw [setVal_value_same]
        exact hn0
      · show (List.count (setVal g r' c n r' c).value _) = 0
        rw [setVal_value_same]
        exact count_rowVals_zero g r' n hrow
    · rw [show rowVals (setVal g r c n) r' = rowVals g r' from
        rowVals_setVal_ne g r c n r' hr]
      exact hg.1 r'
  · intro c'
    by_cases hc : c' = c
    · subst hc
      refine spec_at_most_once_update (List.finRange 9) (List.nodup_finRange 9)
        r (List.mem_finRange r) (fun i => (g i c').value)
        (fun i => (setVal g r c' n i c').value)
        (fun i _ hi => by
          show (setVal g r c' n i c').value = (g i c').value
          rw [setVal_other _ _ _ _ _ _ fun hh => hi hh.1])
        h0 ?_ ?_ (hg.2.1 c')
      · show (setVal g r c' n r c').value ≠ 0
        rw [setVal_value_same]
        exact hn0
      · show (List.count (setVal g r c' n r c').value _) = 0
        rw [setVal_value_same]
        exact count_colVals_zero g c' n hcol
    · rw [show colVals (setVal g r c n) c' = colVals g c' from
        colVals_setVal_ne g r c n c' hc]
      exact hg.2.1 c'
  · intro br bc
    by_cases hbc : br = blockOf r ∧ bc = blockOf c
    · obtain ⟨rfl, rfl⟩ := hbc
      refine spec_at_most_once_update blockIdx blockIdx_nodup
        (innerOf r, innerOf c) (mem_blockIdx _)
        (fun ij => (g (blockCoord (blockOf r) ij.1)
          (blockCoord (blockOf c) ij.2)).value)
        (fun ij => (setVal g r c n (blockCoord (blockOf r) ij.1)
          (blockCoord (blockOf c) ij.2)).value)
        ?_ ?_ ?_ ?_ (hg.2.2 (blockOf r) (blockOf c))
      · intro ij _ hij
        refine congrArg Cell.value (setVal_other _ _ _ _ _ _ ?_)
        rintro ⟨h1, h2⟩
        apply hij
        have e1 := (blockCoord_eq_imp h1).2
        have e2 := (blockCoord_eq_imp h2).2
        exact Prod.ext e1 e2
      · show (g (blockCoord (blockOf r) (innerOf r))
          (blockCoord (blockOf c) (innerOf c))).value = 0
        rw [blockCoord_inner, blockCoord_inner]
        exact h0
      · show (setVal g r c n (blockCoord (blockOf r) (innerOf r))
          (blockCoord (blockOf c) (innerOf c))).value ≠ 0
        rw [blockCoord_inner, blockCoord_inner, setVal_value_same]
        exact hn0
      · show (blockIdx.map _).count ((setVal g r c n
          (blockCoord (blockOf r) (innerOf r))
          (blockCoord (blockOf c) (innerOf c))).value) = 0
        rw [blockCoord_inner, blockCoord_inner, setVal_value_same]
        exact count_subgridVals_zero g r c n hsub
    · rw [show subgridVals (setVal g r c n) br bc = subgridVals g br bc from
        subgridVals_setVal_ne g r c n br bc hbc]
      exact hg.2.2 br bc

/-- A grid obtained by blanking some cells of a rule-consistent grid is
still rule-consistent. -/
theorem spec_preserved_blank (g g' : Grid)
    (h : ∀ r c, g' r c = g r c ∨ (g' r c).value = 0)
    (hg : spec_rule_consistent g) : spec_rule_consistent g' := by
  refine ⟨?_, ?_, ?_⟩
  · intro r n hn
    refine le_trans (count_map_le_of_blank (List.finRange 9) _ _ n hn ?_)
      (hg.1 r n hn)
    intro j _
    rcases h r j with hj | hj
    · exact Or.inl (congrArg Cell.value hj)
    · exact Or.inr hj
  · intro c n hn
    refine le_trans (count_map_le_of_blank (List.finRange 9) _ _ n hn ?_)
      (hg.2.1 c n hn)
    intro i _
    rcases h i c with hi | hi
    · exact Or.inl (congrArg Cell.value hi)
    · exact Or.inr hi
  · intro br bc n hn
    refine le_trans (count_map_le_of_blank blockIdx _ _ n hn ?_)
      (hg.2.2 br bc n hn)
    intro ij _
    rcases h (blockCoord br ij.1) (blockCoord bc ij.2) with hij | hij
    · exact Or.inl (congrArg Cell.value hij)
    · exact Or.inr hij

/-! Section: Facts about findEmpty, numEmpty and safe candidates -/

theorem findEmpty_some {g : Grid} {rc : Fin 9 × Fin 9}
    (h : findEmpty g = some rc) : (g rc.1 rc.2).value = 0 := by
  have := List.find?_some h
  simpa using this

theorem findEmpty_none_iff (g : Grid) :
    findEmpty g = none ↔ numEmpty g = 0 := by
  rw [findEmpty, numEmpty, List.find?_eq_none, List.countP_eq_zero]

theorem count_map_eq_countP (l : List α) (f : α → Nat) (v : Nat) :
    (l.map f).count v = l.countP fun a => f a == v := by
  rw [List.count_eq_countP, List.countP_map]
  rfl

/-- Filling an empty cell with a non-zero value decrements the number of
empty cells. -/
theorem numEmpty_setVal (g : Grid) (r c : Fin 9) (n : Nat)
    (h0 : (g r c).value = 0) (hn : n ≠ 0) :
    numEmpty g = numEmpty (setVal g r c n) + 1 := by
  have hcong : ∀ l : List (Fin 9 × Fin 9), (∀ rc ∈ l, rc ≠ (r, c)) →
      (l.countP fun rc => ((setVal g r c n) rc.1 rc.2).value == 0)
        = l.countP fun rc => (g rc.1 rc.2).value == 0 := by
    intro l hl
    refine List.countP_congr fun rc hrc => ?_
    have hne := hl rc hrc
    rw [setVal_other _ _ _ _ _ _ fun hh => hne (Prod.ext hh.1 hh.2)]
  obtain ⟨s, t, hst⟩ := List.append_of_mem (mem_allPos (r, c))
  have hnd : (s ++ (r, c) :: t).Nodup := hst ▸ allPos_nodup
  rw [List.nodup_append] at hnd
  obtain ⟨hs_nd, ht_nd, hdisj⟩ := hnd
  rw [List.nodup_cons] at ht_nd
  have hs : ∀ rc ∈ s, rc ≠ (r, c) :=
    fun rc hrc he => hdisj hrc (he ▸ List.mem_cons_self _ _)
  have ht : ∀ rc ∈ t, rc ≠ (r, c) := fun rc hrc he => ht_nd.1 (he ▸ hrc)
  rw [numEmpty, numEmpty, hst, List.countP_append, List.countP_append,
    List.countP_cons, List.countP_cons, hcong s hs, hcong t ht]
  have e1 : (((g (r, c).1 (r, c).2).value == 0) : Bool) = true :=
    beq_iff_eq.mpr h0
  have e2 : (((setVal g r c n (r, c).1 (r, c).2).value == 0) : Bool) = false := by
    rw [show ((r, c).1 : Fin 9) = r from rfl, show ((r, c).2 : Fin 9) = c from rfl,
      setVal_value_same]
    exact beq_eq_false_iff_ne.mpr hn
  rw [e1, e2]
  simp only [if_true, Bool.false_eq_true, if_false]
  omega

/-- A digit that is safe at an empty cell is never 0 (the cell itself puts a
0 in its own row). -/
theorem is_safe_nonzero (g : Grid) (r c : Fin 9) (n : Nat)
    (h0 : (g r c).value = 0) (hs : is_safe g r c n = true) : n ≠ 0 := by
  intro hn
  subst hn
  rw [is_safe, Bool.and_eq_true, Bool.and_eq_true] at hs
  have hrow := hs.1.1
  rw [Bool.not_eq_true'] at hrow
  have : is_in_row g r 0 = true :=
    (is_in_row_iff g r 0).mpr ((mem_rowVals g r 0).mpr ⟨c, h0⟩)
  rw [hrow] at this
  exact Bool.false_ne_true this

/-- Grid `sol` completes `g`: every non-zero cell of `g` agrees with `sol`. -/
def valueExtends (g sol : Grid) : Prop :=
  ∀ r c : Fin 9, (g r c).value ≠ 0 → (g r c).value = (sol r c).value

/-- At an empty cell of `g`, the digit a rule-consistent completion puts
there is safe with respect to `g`. -/
theorem is_safe_of_completion (g sol : Grid) (r c : Fin 9)
    (hext : valueExtends g sol) (hcons : spec_rule_consistent sol)
    (h0 : (g r c).value = 0) (hval : (sol r c).value ≠ 0) :
    is_safe g r c ((sol r c).value) = true := by
  have hrow : is_in_row g r ((sol r c).value) = false := by
    cases hx : is_in_row g r ((sol r c).value) with
    | false => rfl
    | true =>
      exfalso
      obtain ⟨j, hj⟩ := (mem_rowVals g r _).mp ((is_in_row_iff g r _).mp hx)
      have hjc : j ≠ c := by
        intro h
        rw [h, h0] at hj
        exact hval hj.symm
      have hgj : (g r j).value ≠ 0 := by rw [hj]; exact hval
      have hsj : (sol r j).value = (sol r c).value := by
        rw [← hext r j hgj]
        exact hj
      have h2 : 2 ≤ (List.finRange 9).countP
          fun j' => (sol r j').value == (sol r c).value :=
        two_le_countP (List.finRange 9) (List.nodup_finRange 9)
          (List.mem_finRange j) (List.mem_finRange c) hjc _
          (beq_iff_eq.mpr hsj) (beq_iff_eq.mpr rfl)
      have hc1 := hcons.1 r ((sol r c).value) hval
      have hrw : (rowVals sol r).count ((sol r c).value)
          = (List.finRange 9).countP
            fun j' => (sol r j').value == (sol r c).value :=
        count_map_eq_countP (List.finRange 9) (fun j' => (sol r j').value) _
      rw [hrw] at hc1
      omega
  have hcol : is_in_col g c ((sol r c).value) = false := by
    cases hx : is_in_col g c ((sol r c).value) with
    | false => rfl
    | true =>
      exfalso
      obtain ⟨i, hi⟩ := (mem_colVals g c _).mp ((is_in_col_iff g c _).mp hx)
      have hir : i ≠ r := by
        intro h
        rw [h, h0] at hi
        exact hval hi.symm
      have hgi : (g i c).value ≠ 0 := by rw [hi]; exact hval
      have hsi : (sol i c).value = (sol r c).value := by
        rw [← hext i c hgi]
        exact hi
      have h2 : 2 ≤ (List.finRange 9).countP
          fun i' => (sol i' c).value == (sol r c).value :=
        two_le_countP (List.finRange 9) (List.nodup_finRange 9)
          (List.mem_finRange i) (List.mem_finRange r) hir _
          (beq_iff_eq.mpr hsi) (beq_iff_eq.mpr rfl)
      have hc1 := hcons.2.1 c ((sol r c).value) hval
      have hrw : (colVals sol c).count ((sol r c).value)
          = (List.finRange 9).countP
            fun i' => (sol i' c).value == (sol r c).value :=
        count_map_eq_countP (List.finRange 9) (fun i' => (sol i' c).value) _
      rw [hrw] at hc1
      omega
  have hsub : is_in_subgrid g (r.val - r.val % 3) (c.val - c.val % 3)
      ((sol r c).value) = false := by
    cases hx : is_in_subgrid g (r.val - r.val % 3) (c.val - c.val % 3)
        ((sol r c).value) with
    | false => rfl
    | true =>
      exfalso
      obtain ⟨ij, hij⟩ := (mem_subgridVals g (blockOf r) (blockOf c) _).mp
        ((is_in_subgrid_anchor_iff g r c _).mp hx)
      have hne : ij ≠ (innerOf r, innerOf c) := by
        intro he
        rw [he] at hij
        simp only at hij
        rw [blockCoord_inner, blockCoord_inner, h0] at hij
        exact hval hij.symm
      have hg0 : (g (blockCoord (blockOf r) ij.1)
          (blockCoord (blockOf c) ij.2)).value ≠ 0 := by
        rw [hij]
        exact hval
      have hsolRC : (sol (blockCoord (blockOf r) ij.1)
          (blockCoord (blockOf c) ij.2)).value = (sol r c).value := by
        rw [← hext _ _ hg0]
        exact hij
      have hinner : (sol (blockCoord (blockOf r) (innerOf r))
          (blockCoord (blockOf c) (innerOf c))).value = (sol r c).value := by
        rw [blockCoord_inner, blockCoord_inner]
      have h2 : 2 ≤ blockIdx.countP fun ij' =>
          (sol (blockCoord (blockOf r) ij'.1)
            (blockCoord (blockOf c) ij'.2)).value == (sol r c).value :=
        two_le_countP blockIdx blockIdx_nodup (mem_blockIdx ij)
          (mem_blockIdx (innerOf r, innerOf c)) hne _
          (beq_iff_eq.mpr hsolRC) (beq_iff_eq.mpr hinner)
      have hc1 := hcons.2.2 (blockOf r) (blockOf c) ((sol r c).value) hval
      have hrw : (subgridVals sol (blockOf r) (blockOf c)).count
            ((sol r c).value)
          = blockIdx.countP fun ij' =>
              (sol (blockCoord (blockOf r) ij'.1)
                (blockCoord (blockOf c) ij'.2)).value == (sol r c).value :=
        count_map_eq_countP blockIdx
          (fun ij' => (sol (blockCoord (blockOf r) ij'.1)
            (blockCoord (blockOf c) ij'.2)).value) _
      rw [hrw] at hc1
      omega
  rw [is_safe, hrow, hcol, hsub]
  rfl

/-! Section: Backtracking: undo discipline, soundness, completeness, stability -/

/-- A failed candidate loop leaves the grid exactly as it found it. -/
theorem fillGo_restore (f : Grid → Nat → Bool × Grid × Nat)
    (hf : ∀ g k, (f g k).1 = false → (f g k).2.1 = g) (r c : Fin 9) :
    ∀ (nums : List Nat) (g : Grid) (k : Nat), (g r c).value = 0 →
      (fillGo f r c nums g k).1 = false → (fillGo f r c nums g k).2.1 = g := by
  intro nums
  induction nums with
  | nil => intro g k _ _; rfl
  | cons n rest ih =>
    intro g k h0 hfail
    simp only [fillGo] at hfail ⊢
    by_cases hs : is_safe g r c n = true
    · rw [if_pos hs] at hfail ⊢
      by_cases hres : (f (setVal g r c n) k).1 = true
      · rw [if_pos hres] at hfail
        exact absurd hfail (by simp [hres])
      · rw [if_neg hres] at hfail ⊢
        have hrest := hf (setVal g r c n) k (by simpa using hres)
        rw [hrest, setVal_undo g r c n h0] at hfail ⊢
        exact ih g _ h0 hfail
    · rw [if_neg hs] at hfail ⊢
      exact ih g k h0 hfail

/-- A failed `fill_grid` call leaves the grid exactly as it found it. -/
theorem fill_grid_restore (tape : Nat → List Nat) :
    ∀ (fuel : Nat) (g : Grid) (k : Nat),
      (fill_grid tape fuel g k).1 = false →
      (fill_grid tape fuel g k).2.1 = g := by
  intro fuel
  induction fuel with
  | zero => intro g k _; rfl
  | succ fuel ih =>
    intro g k hfail
    simp only [fill_grid] at hfail ⊢
    cases hfe : findEmpty g with
    | none => rw [hfe] at hfail
    | some rc =>
      rw [hfe] at hfail
      exact fillGo_restore (fill_grid tape fuel) ih rc.1 rc.2 (tape k) g
        (k + 1) (findEmpty_some hfe) hfail

/-- A successful candidate loop yields a full, rule-consistent grid, given
that the recursive call does so on rule-consistent inputs. -/
theorem fillGo_sound (f : Grid → Nat → Bool × Grid × Nat)
    (hf_sound : ∀ g k, spec_rule_consistent g → (f g k).1 = true →
      numEmpty (f g k).2.1 = 0 ∧ spec_rule_consistent (f g k).2.1)
    (hf_restore : ∀ g k, (f g k).1 = false → (f g k).2.1 = g) (r c : Fin 9) :
    ∀ (nums : List Nat) (g : Grid) (k : Nat), spec_rule_consistent g →
      (g r c).value = 0 → (fillGo f r c nums g k).1 = true →
      numEmpty (fillGo f r c nums g k).2.1 = 0 ∧
        spec_rule_consistent (fillGo f r c nums g k).2.1 := by
  intro nums
  induction nums with
  | nil => intro g k _ _ h; exact absurd h (by simp [fillGo])
  | cons n rest ih =>
    intro g k hcons h0 hsucc
    simp only [fillGo] at hsucc ⊢
    by_cases hs : is_safe g r c n = true
    · rw [if_pos hs] at hsucc ⊢
      by_cases hres : (f (setVal g r c n) k).1 = true
      · rw [if_pos hres] at hsucc ⊢
        exact hf_sound _ _ (spec_preserved_setVal g r c n hcons h0 hs) hres
      · rw [if_neg hres] at hsucc ⊢
        have hrest := hf_restore _ _ (by simpa using hres)
        rw [hrest, setVal_undo g r c n h0] at hsucc ⊢
        exact ih g _ hcons h0 hsucc
    · rw [if_neg hs] at hsucc ⊢
      exact ih g k hcons h0 hsucc

/-- Success of `fill_grid` on a rule-consistent grid yields a completely
filled, rule-consistent grid. -/
theorem fill_grid_sound (tape : Nat → List Nat) :
    ∀ (fuel : Nat) (g : Grid) (k : Nat), spec_rule_consistent g →
      (fill_grid tape fuel g k).1 = true →
      numEmpty (fill_grid tape fuel g k).2.1 = 0 ∧
        spec_rule_consistent (fill_grid tape fuel g k).2.1 := by
  intro fuel
  induction fuel with
  | zero => intro g k _ h; exact absurd h (by simp [fill_grid])
  | succ fuel ih =>
    intro g k hcons hsucc
    simp only [fill_grid] at hsucc ⊢
    cases hfe : findEmpty g with
    | none => exact ⟨(findEmpty_none_iff g).mp hfe, hcons⟩
    | some rc =>
      rw [hfe] at hsucc
      exact fillGo_sound (fill_grid tape fuel) ih (fill_grid_restore tape fuel)
        rc.1 rc.2 (tape k) g (k + 1) hcons (findEmpty_some hfe) hsucc

/-- If some candidate in the list is safe and guaranteed to succeed after
placement, the candidate loop succeeds. -/
theorem fillGo_complete (f : Grid → Nat → Bool × Grid × Nat)
    (hre : ∀ g k, (f g k).1 = false → (f g k).2.1 = g) (r c : Fin 9)
    (g : Grid) (h0 : (g r c).value = 0) (v : Nat)
    (hsafe : is_safe g r c v = true)
    (hfv : ∀ k, (f (setVal g r c v) k).1 = true) :
    ∀ (nums : List Nat) (k : Nat), v ∈ nums →
      (fillGo f r c nums g k).1 = true := by
  intro nums
  induction nums with
  | nil => intro k h; exact absurd h (List.not_mem_nil v)
  | cons n rest ih =>
    intro k hv
    simp only [fillGo]
    by_cases hn : n = v
    · subst hn
      rw [if_pos hsafe]
      by_cases hres : (f (setVal g r c n) k).1 = true
      · rw [if_pos hres]
        exact hres
      · exact absurd (hfv k) hres
    · have hvrest : v ∈ rest := by
        rcases List.mem_cons.mp hv with h | h
        · exact absurd h.symm hn
        · exact h
      by_cases hs : is_safe g r c n = true
      · rw [if_pos hs]
        by_cases hres : (f (setVal g r c n) k).1 = true
        · rw [if_pos hres]
          exact hres
        · rw [if_neg hres]
          have hrest := hre _ _ (by simpa using hres)
          rw [hrest, setVal_undo g r c n h0]
          exact ih _ hvrest
      · rw [if_neg hs]
        exact ih _ hvrest

/-- Completeness: if the grid extends to a full rule-consistent solution
with digits 1..9 and every tape entry offers all digits 1..9, `fill_grid`
succeeds (with any fuel exceeding the number of empty cells). -/
theorem fill_grid_complete (tape : Nat → List Nat) (sol : Grid)
    (hcons : spec_rule_consistent sol)
    (hrange : ∀ r c : Fin 9, 1 ≤ (sol r c).value ∧ (sol r c).value ≤ 9)
    (htape : ∀ k m, 1 ≤ m → m ≤ 9 → m ∈ tape k) :
    ∀ (fuel : Nat) (g : Grid) (k : Nat), numEmpty g < fuel →
      valueExtends g sol → (fill_grid tape fuel g k).1 = true := by
  intro fuel
  induction fuel with
  | zero => intro g k h _; omega
  | succ fuel ih =>
    intro g k hfuel hext
    simp only [fill_grid]
    cases hfe : findEmpty g with
    | none => rfl
    | some rc =>
      have h0 : (g rc.1 rc.2).value = 0 := findEmpty_some hfe
      have hv1 := (hrange rc.1 rc.2).1
      have hv9 := (hrange rc.1 rc.2).2
      have hvmem : (sol rc.1 rc.2).value ∈ tape k := htape k _ hv1 hv9
      have hsafe : is_safe g rc.1 rc.2 ((sol rc.1 rc.2).value) = true :=
        is_safe_of_completion g sol rc.1 rc.2 hext hcons h0 (by omega)
      have hnum : numEmpty g
          = numEmpty (setVal g rc.1 rc.2 ((sol rc.1 rc.2).value)) + 1 :=
        numEmpty_setVal g rc.1 rc.2 _ h0 (by omega)
      have hfv : ∀ k', (fill_grid tape fuel
          (setVal g rc.1 rc.2 ((sol rc.1 rc.2).value)) k').1 = true := by
        intro k'
        refine ih _ k' (by omega) ?_
        intro i j hij
        by_cases hijrc : i = rc.1 ∧ j = rc.2
        · obtain ⟨rfl, rfl⟩ := hijrc
          rw [setVal_value_same]
        · rw [setVal_other _ _ _ _ _ _ hijrc] at hij ⊢
          exact hext i j hij
      exact fillGo_complete (fill_grid tape fuel) (fill_grid_restore tape fuel)
        rc.1 rc.2 g h0 _ hsafe hfv (tape k) (k + 1) hvmem

/-- Candidate loops driven by recursors that agree on all reachable
placements coincide. -/
theorem fillGo_congr (f₁ f₂ : Grid → Nat → Bool × Grid × Nat) (r c : Fin 9)
    (hre : ∀ g k, (f₁ g k).1 = false → (f₁ g k).2.1 = g) (g : Grid)
    (h0 : (g r c).value = 0)
    (hf : ∀ n k, is_safe g r c n = true →
      f₁ (setVal g r c n) k = f₂ (setVal g r c n) k) :
    ∀ (nums : List Nat) (k : Nat),
      fillGo f₁ r c nums g k = fillGo f₂ r c nums g k := by
  intro nums
  induction nums with
  | nil => intro k; rfl
  | cons n rest ih =>
    intro k
    simp only [fillGo]
    by_cases hs : is_safe g r c n = true
    · rw [if_pos hs, if_pos hs, ← hf n k hs]
      by_cases hres : (f₁ (setVal g r c n) k).1 = true
      · rw [if_pos hres, if_pos hres]
      · rw [if_neg hres, if_neg hres]
        have hrest := hre _ _ (by simpa using hres)
        rw [hrest, setVal_undo g r c n h0]
        exact ih _
    · rw [if_neg hs, if_neg hs]
      exact ih k

/-- Fuel irrelevance: any two fuels strictly above the number of empty
cells produce identical results — the fuel embedding of the unbounded Rust
recursion is faithful for the fuel `fill_grid` is actually run with. -/
theorem fill_grid_stable (tape : Nat → List Nat) :
    ∀ (N : Nat) (g : Grid) (k fuel₁ fuel₂ : Nat), numEmpty g ≤ N →
      N < fuel₁ → N < fuel₂ →
      fill_grid tape fuel₁ g k = fill_grid tape fuel₂ g k := by
  intro N
  induction N with
  | zero =>
    intro g k fuel₁ fuel₂ hN h1 h2
    have hfe : findEmpty g = none := (findEmpty_none_iff g).mpr (by omega)
    cases fuel₁ with
    | zero => omega
    | succ a =>
      cases fuel₂ with
      | zero => omega
      | succ b =>
        simp only [fill_grid]
        rw [hfe]
  | succ N ih =>
    intro g k fuel₁ fuel₂ hN h1 h2
    cases fuel₁ with
    | zero => omega
    | succ a =>
      cases fuel₂ with
      | zero => omega
      | succ b =>
        simp only [fill_grid]
        cases hfe : findEmpty g with
        | none => rfl
        | some rc =>
          have h0 : (g rc.1 rc.2).value = 0 := findEmpty_some hfe
          refine fillGo_congr (fill_grid tape a) (fill_grid tape b) rc.1 rc.2
            (fill_grid_restore tape a) g h0 ?_ (tape k) (k + 1)
          intro n k' hs
          have hnz : n ≠ 0 := is_safe_nonzero g rc.1 rc.2 n h0 hs
          have hnum := numEmpty_setVal g rc.1 rc.2 n h0 hnz
          exact ih (setVal g rc.1 rc.2 n) k' a b (by omega) (by omega)
            (by omega)

/-! Section: C6: the generator always succeeds from an empty grid -/

/-- The full cyclic Sudoku solution as a grid (used as the completion
witness for the backtracking completeness argument). -/
def cyclicFull : Grid := fun r c => Cell.new (cyclicVal r c) true

theorem cyclicFull_valid : validate_sudoku cyclicFull = true := by decide

theorem cyclicFull_range :
    ∀ r c : Fin 9, 1 ≤ (cyclicFull r c).value ∧ (cyclicFull r c).value ≤ 9 := by
  decide

/-- An all-empty grid is rule-consistent. -/
theorem spec_rule_consistent_of_empty (g : Grid)
    (h : ∀ r c : Fin 9, (g r c).value = 0) : spec_rule_consistent g := by
  refine ⟨fun r n hn => ?_, fun c n hn => ?_, fun br bc n hn => ?_⟩
  · have : n ∉ rowVals g r := fun hm => by
      obtain ⟨j, hj⟩ := (mem_rowVals g r n).mp hm
      rw [h r j] at hj
      exact hn hj.symm
    simp [List.count_eq_zero_of_not_mem this]
  · have : n ∉ colVals g c := fun hm => by
      obtain ⟨i, hi⟩ := (mem_colVals g c n).mp hm
      rw [h i c] at hi
      exact hn hi.symm
    simp [List.count_eq_zero_of_not_mem this]
  · have : n ∉ subgridVals g br bc := fun hm => by
      obtain ⟨ij, hij⟩ := (mem_subgridVals g br bc n).mp hm
      rw [h _ _] at hij
      exact hn hij.symm
    simp [List.count_eq_zero_of_not_mem this]

theorem numEmpty_of_all_empty (g : Grid)
    (h : ∀ r c : Fin 9, (g r c).value = 0) : numEmpty g = 81 := by
  have hall : numEmpty g = allPos.length :=
    List.countP_eq_length.mpr fun rc _ => beq_iff_eq.mpr (h rc.1 rc.2)
  rw [hall]
  decide

theorem numEmpty_zero_all (g : Grid) (h : numEmpty g = 0) :
    ∀ r c : Fin 9, (g r c).value ≠ 0 := by
  intro r c hv
  have := List.countP_eq_zero.mp h (r, c) (mem_allPos (r, c))
  simp only [beq_iff_eq] at this
  exact this hv

/-- A permutation of 1..9 contains every digit 1..9. -/
theorem perm_digits_mem (l : List Nat)
    (h : l.Perm [1, 2, 3, 4, 5, 6, 7, 8, 9]) :
    ∀ m : Nat, 1 ≤ m → m ≤ 9 → m ∈ l := by
  intro m h1 h9
  rw [h.mem_iff]
  interval_cases m <;> simp

/-- C6: started on a grid whose cells are all empty, with every shuffle a
permutation of 1..9 and any fuel exceeding the 81-deep recursion bound,
`fill_grid` returns success, its final grid is completely filled and passes
`validate_sudoku`, and the result does not depend on the fuel (in particular
it equals the run with the canonical fuel 82 = numEmpty + 1). -/
theorem fill_grid_succeeds_on_empty (tape : Nat → List Nat) (g : Grid)
    (htape : ∀ k, (tape k).Perm [1, 2, 3, 4, 5, 6, 7, 8, 9])
    (hempty : ∀ r c : Fin 9, (g r c).value = 0) (fuel k : Nat)
    (hfuel : 81 < fuel) :
    (fill_grid tape fuel g k).1 = true ∧
    numEmpty (fill_grid tape fuel g k).2.1 = 0 ∧
    validate_sudoku (fill_grid tape fuel g k).2.1 = true ∧
    fill_grid tape fuel g k = fill_grid tape 82 g k := by
  have hnum : numEmpty g = 81 := numEmpty_of_all_empty g hempty
  have hext : valueExtends g cyclicFull := fun r c hv => absurd (hempty r c) hv
  have hsucc : (fill_grid tape fuel g k).1 = true :=
    fill_grid_complete tape cyclicFull
      ((validate_sudoku_iff cyclicFull).mp cyclicFull_valid) cyclicFull_range
      (fun k' => perm_digits_mem (tape k') (htape k')) fuel g k (by omega) hext
  have hsound := fill_grid_sound tape fuel g k
    (spec_rule_consistent_of_empty g hempty) hsucc
  refine ⟨hsucc, hsound.1, (validate_sudoku_iff _).mpr hsound.2, ?_⟩
  exact fill_grid_stable tape 81 g k fuel 82 (by omega) hfuel (by omega)

/-- Witness for C6 at the identity shuffle tape and the all-clue empty
start grid of `Puzzle::new`. -/
theorem fill_grid_succeeds_on_empty_witness :
    (fill_grid (fun _ => [1, 2, 3, 4, 5, 6, 7, 8, 9]) 82
      (fun _ _ => Cell.new 0 true) 0).1 = true :=
  (fill_grid_succeeds_on_empty (fun _ => [1, 2, 3, 4, 5, 6, 7, 8, 9])
    (fun _ _ => Cell.new 0 true) (fun _ => List.Perm.refl _)
    (fun _ _ => rfl) 82 0 (by omega)).1

/-! Section: The filler only writes values; removal facts -/

/-- The candidate loop never touches clue or mistake flags. -/
theorem fillGo_flags (f : Grid → Nat → Bool × Grid × Nat)
    (hf : ∀ g k i j, (((f g k).2.1 : Grid) i j).is_clue = (g i j).is_clue ∧
      (((f g k).2.1 : Grid) i j).possible_wrong = (g i j).possible_wrong)
    (r c : Fin 9) :
    ∀ (nums : List Nat) (g : Grid) (k : Nat) (i j : Fin 9),
      ((fillGo f r c nums g k).2.1 i j).is_clue = (g i j).is_clue ∧
      ((fillGo f r c nums g k).2.1 i j).possible_wrong
        = (g i j).possible_wrong := by
  intro nums
  induction nums with
  | nil => intro g k i j; exact ⟨rfl, rfl⟩
  | cons n rest ih =>
    intro g k i j
    simp only [fillGo]
    by_cases hs : is_safe g r c n = true
    · rw [if_pos hs]
      by_cases hres : (f (setVal g r c n) k).1 = true
      · rw [if_pos hres]
        obtain ⟨h1, h2⟩ := hf (setVal g r c n) k i j
        rw [h1, h2, setVal_clue, setVal_wrong]
        exact ⟨rfl, rfl⟩
      · rw [if_neg hres]
        obtain ⟨h1, h2⟩ := ih (setVal (f (setVal g r c n) k).2.1 r c 0)
          (f (setVal g r c n) k).2.2 i j
        rw [h1, h2, setVal_clue, setVal_wrong]
        obtain ⟨h3, h4⟩ := hf (setVal g r c n) k i j
        rw [h3, h4, setVal_clue, setVal_wrong]
        exact ⟨rfl, rfl⟩
    · rw [if_neg hs]
      exact ih g k i j

/-- Model of `fill_grid` never touches clue or mistake flags. -/
theorem fill_grid_flags (tape : Nat → List Nat) :
    ∀ (fuel : Nat) (g : Grid) (k : Nat) (i j : Fin 9),
      ((fill_grid tape fuel g k).2.1 i j).is_clue = (g i j).is_clue ∧
      ((fill_grid tape fuel g k).2.1 i j).possible_wrong
        = (g i j).possible_wrong := by
  intro fuel
  induction fuel with
  | zero => intro g k i j; exact ⟨rfl, rfl⟩
  | succ fuel ih =>
    intro g k i j
    simp only [fill_grid]
    cases hfe : findEmpty g with
    | none => exact ⟨rfl, rfl⟩
    | some rc =>
      exact fillGo_flags (fill_grid tape fuel) (fun g' k' => ih g' k')
        rc.1 rc.2 (tape k) g (k + 1) i j

/-- Cellwise description of `blankAll`: listed coordinates become
`Cell::new(0, false)`, all others are untouched. -/
theorem blankAll_apply : ∀ (ps : List (Fin 9 × Fin 9)) (g : Grid) (r c : Fin 9),
    ((r, c) ∈ ps → blankAll ps g r c = Cell.new 0 false) ∧
    ((r, c) ∉ ps → blankAll ps g r c = g r c) := by
  intro ps
  induction ps with
  | nil =>
    intro g r c
    exact ⟨fun h => absurd h (List.not_mem_nil _), fun _ => rfl⟩
  | cons p rest ih =>
    intro g r c
    have hstep : blankAll (p :: rest) g
        = blankAll rest (setCell g p.1 p.2 (Cell.new 0 false)) := rfl
    constructor
    · intro hmem
      by_cases hrest : (r, c) ∈ rest
      · rw [hstep]
        exact (ih _ r c).1 hrest
      · rcases List.mem_cons.mp hmem with heq | hmem'
        · rw [hstep, (ih _ r c).2 hrest, ← heq]
          exact setCell_same g r c _
        · exact absurd hmem' hrest
    · intro hnmem
      have hp : p ≠ (r, c) := fun h => hnmem (h ▸ List.mem_cons_self p rest)
      have hrest : (r, c) ∉ rest := fun h => hnmem (List.mem_cons_of_mem _ h)
      rw [hstep, (ih _ r c).2 hrest,
        setCell_other _ _ _ _ _ _ fun hh => hp (Prod.ext hh.1.symm hh.2.symm)]

/-! Section: C1: freshly constructed puzzles validate -/

/-- C1: for every difficulty and every run of the generator (any sequence of
1..9 shuffles, any removal order), `Puzzle::new` produces a puzzle whose
`validate()` is true: the generated full solution is rule-consistent and
removal only blanks cells. -/
theorem puzzle_new_validates (d : Difficulty) (tape : Nat → List Nat)
    (positions : List (Fin 9 × Fin 9))
    (htape : ∀ k, (tape k).Perm [1, 2, 3, 4, 5, 6, 7, 8, 9]) :
    (Puzzle.new d tape positions).validate = true := by
  have hempty : ∀ r c : Fin 9, (((fun _ _ => Cell.new 0 true) : Grid) r c).value = 0 :=
    fun _ _ => rfl
  have hfill := fill_grid_succeeds_on_empty tape (fun _ _ => Cell.new 0 true)
    htape hempty (numEmpty ((fun _ _ => Cell.new 0 true) : Grid) + 1) 0
    (by rw [numEmpty_of_all_empty _ hempty]; omega)
  have hcons : spec_rule_consistent
      (generate_full_solution tape (fun _ _ => Cell.new 0 true)) :=
    (validate_sudoku_iff _).mp hfill.2.2.1
  have hblank : ∀ r c : Fin 9,
      (blankAll (positions.take (9 * 9 - d.clues))
        (generate_full_solution tape (fun _ _ => Cell.new 0 true))) r c
        = (generate_full_solution tape (fun _ _ => Cell.new 0 true)) r c ∨
      ((blankAll (positions.take (9 * 9 - d.clues))
        (generate_full_solution tape (fun _ _ => Cell.new 0 true))) r c).value
        = 0 := by
    intro r c
    by_cases hm : (r, c) ∈ positions.take (9 * 9 - d.clues)
    · right
      rw [(blankAll_apply _ _ r c).1 hm]
      rfl
    · left
      exact (blankAll_apply _ _ r c).2 hm
  have := spec_preserved_blank _ _ hblank hcons
  show validate_sudoku (blankAll (positions.take (9 * 9 - d.clues))
    (generate_full_solution tape (fun _ _ => Cell.new 0 true))) = true
  exact (validate_sudoku_iff _).mpr this

/-- Witness for C1: the identity tape and the row-major removal order. -/
theorem puzzle_new_validates_witness :
    (Puzzle.new Difficulty.easy (fun _ => [1, 2, 3, 4, 5, 6, 7, 8, 9])
      allPos).validate = true :=
  puzzle_new_validates Difficulty.easy (fun _ => [1, 2, 3, 4, 5, 6, 7, 8, 9])
    allPos (fun _ => List.Perm.refl _)

/-! Section: C2: exact clue counts after removal -/

theorem countP_add_countP_not (l : List α) (p : α → Bool) :
    l.countP p + l.countP (fun a => !(p a)) = l.length := by
  induction l with
  | nil => rfl
  | cons a rest ih =>
    rw [List.countP_cons, List.countP_cons, List.length_cons]
    cases h : p a
    · simp only [h, Bool.not_false, Bool.false_eq_true, if_false, if_true]
      omega
    · simp only [h, Bool.not_true, Bool.false_eq_true, if_false, if_true]
      omega

/-- C2: `Puzzle::new(d)` keeps exactly `d.clues` non-zero cells (Easy 36,
Medium 34, Hard 32, Expert 30, all within 17..81) and blanks exactly
`81 - d.clues` cells; every remaining non-zero cell is a clue and every
blanked cell is not. -/
theorem puzzle_new_clue_counts (d : Difficulty) (tape : Nat → List Nat)
    (positions : List (Fin 9 × Fin 9))
    (htape : ∀ k, (tape k).Perm [1, 2, 3, 4, 5, 6, 7, 8, 9])
    (hpos : positions.Perm allPos) :
    (allPos.countP fun rc =>
      !(((Puzzle.new d tape positions).grid rc.1 rc.2).value == 0)) = d.clues ∧
    (allPos.countP fun rc =>
      ((Puzzle.new d tape positions).grid rc.1 rc.2).value == 0)
        = 81 - d.clues ∧
    (∀ r c : Fin 9,
      (((Puzzle.new d tape positions).grid r c).value ≠ 0 →
        ((Puzzle.new d tape positions).grid r c).is_clue = true) ∧
      (((Puzzle.new d tape positions).grid r c).value = 0 →
        ((Puzzle.new d tape positions).grid r c).is_clue = false)) ∧
    (17 ≤ d.clues ∧ d.clues ≤ 81) ∧
    Difficulty.easy.clues = 36 ∧ Difficulty.medium.clues = 34 ∧
    Difficulty.hard.clues = 32 ∧ Difficulty.expert.clues = 30 := by
  have hempty : ∀ r c : Fin 9,
      (((fun _ _ => Cell.new 0 true) : Grid) r c).value = 0 := fun _ _ => rfl
  have hfill := fill_grid_succeeds_on_empty tape (fun _ _ => Cell.new 0 true)
    htape hempty (numEmpty ((fun _ _ => Cell.new 0 true) : Grid) + 1) 0
    (by rw [numEmpty_of_all_empty _ hempty]; omega)
  set gfull := generate_full_solution tape ((fun _ _ => Cell.new 0 true) : Grid)
    with hgfull
  have hfullnz : ∀ r c : Fin 9, (gfull r c).value ≠ 0 :=
    numEmpty_zero_all _ hfill.2.1
  have hflags : ∀ r c : Fin 9, (gfull r c).is_clue = true := fun r c =>
    (fill_grid_flags tape (numEmpty ((fun _ _ => Cell.new 0 true) : Grid) + 1)
      (fun _ _ => Cell.new 0 true) 0 r c).1
  set S := positions.take (9 * 9 - d.clues) with hS
  have hG : (Puzzle.new d tape positions).grid = blankAll S gfull := rfl
  have hinP : ∀ rc : Fin 9 × Fin 9, rc ∈ S →
      (Puzzle.new d tape positions).grid rc.1 rc.2 = Cell.new 0 false := by
    intro rc hm
    rw [hG]
    exact (blankAll_apply S gfull rc.1 rc.2).1 (by rwa [Prod.mk.eta])
  have houtP : ∀ rc : Fin 9 × Fin 9, rc ∉ S →
      (Puzzle.new d tape positions).grid rc.1 rc.2 = gfull rc.1 rc.2 := by
    intro rc hm
    rw [hG]
    exact (blankAll_apply S gfull rc.1 rc.2).2 (by rwa [Prod.mk.eta])
  have hposlen : positions.length = 81 := by
    rw [hpos.length_eq]
    decide
  have hclue81 : d.clues ≤ 81 := by cases d <;> decide
  have hSlen : S.length = 81 - d.clues := by
    rw [hS, List.length_take, hposlen]
    omega
  have hposnodup : positions.Nodup := hpos.nodup_iff.mpr allPos_nodup
  have hsplit : S ++ positions.drop (9 * 9 - d.clues) = positions :=
    List.take_append_drop _ _
  have hdisj : ∀ a ∈ positions.drop (9 * 9 - d.clues), a ∉ S := by
    have hnd : (S ++ positions.drop (9 * 9 - d.clues)).Nodup := by
      rw [hsplit]
      exact hposnodup
    rw [List.nodup_append] at hnd
    exact fun a ha hs => hnd.2.2 hs ha
  have hz : (allPos.countP fun rc =>
      ((Puzzle.new d tape positions).grid rc.1 rc.2).value == 0)
        = 81 - d.clues := by
    have hcongr : (allPos.countP fun rc =>
        ((Puzzle.new d tape positions).grid rc.1 rc.2).value == 0)
          = allPos.countP fun rc => decide (rc ∈ S) := by
      refine List.countP_congr fun rc _ => ?_
      rw [beq_iff_eq, decide_eq_true_eq]
      constructor
      · intro hv
        by_contra hns
        rw [houtP rc hns] at hv
        exact hfullnz rc.1 rc.2 hv
      · intro hs
        rw [hinP rc hs]
        rfl
    rw [hcongr, ← hpos.countP_eq, ← hsplit, List.countP_append]
    have h1 : (S.countP fun rc => decide (rc ∈ S)) = S.length :=
      List.countP_eq_length.mpr fun a ha => decide_eq_true ha
    have h2 : ((positions.drop (9 * 9 - d.clues)).countP
        fun rc => decide (rc ∈ S)) = 0 :=
      List.countP_eq_zero.mpr fun a ha => by simp [hdisj a ha]
    rw [h1, h2, hSlen]
    omega
  have hnz : (allPos.countP fun rc =>
      !(((Puzzle.new d tape positions).grid rc.1 rc.2).value == 0))
        = d.clues := by
    have htot := countP_add_countP_not allPos fun rc =>
      ((Puzzle.new d tape positions).grid rc.1 rc.2).value == 0
    rw [hz] at htot
    have hlen : allPos.length = 81 := by decide
    rw [hlen] at htot
    omega
  refine ⟨hnz, hz, ?_, ⟨by cases d <;> decide, hclue81⟩, rfl, rfl, rfl, rfl⟩
  intro r c
  constructor
  · intro hv
    by_cases hm : (r, c) ∈ S
    · rw [hinP (r, c) hm] at hv
      exact absurd rfl hv
    · rw [houtP (r, c) hm]
      exact hflags r c
  · intro hv
    by_cases hm : (r, c) ∈ S
    · rw [hinP (r, c) hm]
      rfl
    · rw [houtP (r, c) hm] at hv
      exact absurd hv (hfullnz r c)

/-- Witness for C2 at the easy difficulty, identity tape and row-major
removal order. -/
theorem puzzle_new_clue_counts_witness :
    (allPos.countP fun rc =>
      !(((Puzzle.new Difficulty.easy (fun _ => [1, 2, 3, 4, 5, 6, 7, 8, 9])
        allPos).grid rc.1 rc.2).value == 0)) = Difficulty.easy.clues :=
  (puzzle_new_clue_counts Difficulty.easy
    (fun _ => [1, 2, 3, 4, 5, 6, 7, 8, 9]) allPos
    (fun _ => List.Perm.refl _) (List.Perm.refl _)).1

/-- Witness for C5: the cyclic full solution evaluates as valid, so the
spec predicate holds of it. -/
theorem validate_grid_matches_spec_witness : spec_rule_consistent cyclicFull :=
  (validate_grid_matches_spec cyclicFull).mp (by decide)
